import Mathlib

/-!
Verification of the decompression core of `ouch` (files
`src/commands/decompress.rs` and `src/archive/sevenz.rs`) against its
natural-language specification.

The embedding is a shallow one:

* A filesystem is a list of absolute paths (each path a list of
  components).  Extractors record the leaf paths they write; a directory
  is represented explicitly only when listed.
* Byte streams are `List Nat`; the opaque filter codecs (gzip, bzip2,
  lz4, xz, snappy, zstd) are an abstract family
  `dec : CompressionFormat → List Nat → List Nat`, as the spec treats
  them as opaque stream transformers.
* Interactive questions (`clear_path` collisions, `ask_to_create_file`,
  the in-memory zip load warning) are an abstract
  `decision : Prompt → Bool`; every consultation is recorded in a trace.
* Rust `Result` is `Except`/explicit outcome values; panics
  (`assert!`, `unreachable!`, `Vec::remove` on an empty vector) are the
  `panicked` error.
* `tempfile::tempdir_in` always produces a fresh name; freshness of the
  modelled `tempName` is therefore a hypothesis of the theorems, not a
  property of the model.
-/

namespace Ouch

/-- A filesystem path, as its list of components from the root. -/
abbrev Path := List String

/-- `isUnder base q` holds when `q` is `base` itself or lies inside the
directory `base` (component-wise prefix). -/
def isUnder : Path → Path → Bool
  | [], _ => true
  | _ :: _, [] => false
  | a :: as, b :: bs => a == b && isUnder as bs

/-- `removeTree base fs` removes `base` and everything inside it
(`fs_err::remove_dir_all` / dropping a `tempfile::TempDir`). -/
def removeTree (base : Path) (fs : List Path) : List Path :=
  fs.filter (fun q => !isUnder base q)

/-- `renameTree src dst fs` is `fs_err::rename src dst`: every path at or
inside `src` is re-rooted at `dst`. -/
def renameTree (src dst : Path) (fs : List Path) : List Path :=
  fs.map (fun q => if isUnder src q then dst ++ q.drop src.length else q)

/-- Archive content: each extracted object as a top-level entry name plus
the rest of its relative path. -/
abbrev Content := List (String × List String)

/-- `addContent base content fs` records the paths an extractor wrote
under `base`. -/
def addContent (base : Path) (content : Content) (fs : List Path) : List Path :=
  fs ++ content.map (fun c => base ++ (c.1 :: c.2))

/-- Names of the top-level entries of directory `d`, as
`fs::read_dir d` reports them (each distinct immediate child once). -/
def childNames (fs : List Path) (d : Path) : List String :=
  (fs.filterMap (fun q => if isUnder d q then (q.drop d.length).head? else none)).dedup

/-- The compression formats of `extension.rs` (`CompressionFormat`). -/
inductive CompressionFormat
  | Gzip | Bzip | Lz4 | Lzma | Snappy | Zstd | Tar | Zip | SevenZip
deriving DecidableEq, Repr

/-- Filter kinds wrap a byte stream; the other three are containers. -/
def isFilterFormat : CompressionFormat → Bool
  | .Gzip | .Bzip | .Lz4 | .Lzma | .Snappy | .Zstd => true
  | .Tar | .Zip | .SevenZip => false

/-- Errors of the modelled core.  `panicked` stands for a Rust panic
(`assert!`, `unreachable!`); `codecError` for any library decode error. -/
inductive OuchErr
  | codecError | panicked
deriving DecidableEq, Repr

/-- One recorded interactive consultation. -/
inductive Prompt
  | loadWarning
  | createFile (p : Path)
  | collision (p : Path)
deriving DecidableEq, Repr

/-- Observable outcome of a run.  `success n` is the happy path that
prints the final message with `n` files; `aborted` is the early
`return Ok(())` after a declined question (`ControlFlow::Break` inside
`smart_unpack`), which skips the success message; `errored` is `Err`
(or a panic). -/
inductive Outcome
  | success (files : Nat)
  | aborted
  | errored (e : OuchErr)
deriving DecidableEq, Repr

/-- Final state of a run: resulting filesystem, the interactive
questions asked (in order), and the outcome. -/
structure RunResult where
  fs : List Path
  prompts : List Prompt
  outcome : Outcome
deriving DecidableEq, Repr

/-- `decompress.rs` lines 81-92: wrap the previous decoder in a new one.
Filter kinds wrap the reader with the format's decoder; the three
container kinds hit `unreachable!()`. -/
def chain_reader_decoder (dec : CompressionFormat → List Nat → List Nat)
    (format : CompressionFormat) (decoder : List Nat) : Except OuchErr (List Nat) :=
  match format with
  | .Gzip => .ok (dec .Gzip decoder)
  | .Bzip => .ok (dec .Bzip decoder)
  | .Lz4 => .ok (dec .Lz4 decoder)
  | .Lzma => .ok (dec .Lzma decoder)
  | .Snappy => .ok (dec .Snappy decoder)
  | .Zstd => .ok (dec .Zstd decoder)
  | .Tar => .error .panicked
  | .Zip => .error .panicked
  | .SevenZip => .error .panicked

/-- The loop body of `decompress.rs` lines 96-98 unrolled: wrap each
format of the list in turn, propagating failure like `?`. -/
def wrapLoop (dec : CompressionFormat → List Nat → List Nat) :
    List CompressionFormat → List Nat → Except OuchErr (List Nat)
  | [], reader => .ok reader
  | f :: fs, reader =>
    match chain_reader_decoder dec f reader with
    | .ok reader' => wrapLoop dec fs reader'
    | .error e => .error e

/-- `decompress.rs` lines 96-98: `for format in extensions.iter().rev()
{ reader = chain_reader_decoder(format, reader)?; }`. -/
def wrapFilters (dec : CompressionFormat → List Nat → List Nat)
    (extensions : List CompressionFormat) (reader : List Nat) : Except OuchErr (List Nat) :=
  wrapLoop dec extensions.reverse reader

/-- Modelled from the spec: `split_first_compression_format` lives in
`extension.rs`, which is not under `src/`.  The spec's data model orders
a chain outermost-first with `terminal = chain.last()`; the code's
`formats` vector is that chain reversed (innermost first, as the
filename parser produces it), each `Extension` carrying one format, so
removing the first element yields the terminal and the remaining
(innermost-first) filters, which the subsequent `.iter().rev()` loop
then applies outermost-first.  `Vec::remove(0)` on an empty vector
panics, hence `none` for the empty chain. -/
def split_first_compression_format (formats : List CompressionFormat) :
    Option (CompressionFormat × List CompressionFormat) :=
  match formats with
  | [] => none
  | f :: rest => some (f, rest)

/-- Temporary directory created by `tempfile::tempdir_in(output_dir)`. -/
def tempPathOf (output_dir : Path) (tempName : String) : Path :=
  output_dir ++ [tempName]

/-- Modelled from the spec: `utils::clear_path` is in `utils`, not under
`src/`.  Per the spec's Collision Resolver contract it is consulted only
when the destination path already exists; declining returns `none`
(abort), proceeding removes the pre-existing path.  The second component
is the recorded consultation. -/
def clear_path (fs : List Path) (p : Path) (decision : Prompt → Bool) :
    Option (List Path) × List Prompt :=
  if p ∈ fs then
    if decision (.collision p) then (some (removeTree p fs), [.collision p])
    else (none, [.collision p])
  else (some fs, [])

/-- `decompress.rs` lines 182-236, `smart_unpack`.

`unpack` stands for the `unpack_fn` closure run at the temporary
directory: on success the content written and the returned entry count,
on failure the error together with whatever partial content had been
written before failing.  The trailing `removeTree` on every exit path
after creation is the `TempDir` destructor. -/
def smart_unpack
    (unpack : Except (OuchErr × Content) (Content × Nat))
    (fs0 : List Path) (output_dir output_file_path : Path)
    (tempName : String) (decision : Prompt → Bool) : RunResult :=
  if output_dir ∈ fs0 then
    let temp := tempPathOf output_dir tempName
    let fs1 := fs0 ++ [temp]
    match unpack with
    | .error (e, written) =>
      ⟨removeTree temp (addContent temp written fs1), [], .errored e⟩
    | .ok (content, files) =>
      let fs2 := addContent temp content fs1
      match childNames fs2 temp with
      | [file_name] =>
        let file_path := temp ++ [file_name]
        let correct_path := output_dir ++ [file_name]
        match clear_path fs2 correct_path decision with
        | (none, ps) => ⟨removeTree temp fs2, ps, .aborted⟩
        | (some fs2', ps) =>
          ⟨removeTree temp (renameTree file_path correct_path fs2'), ps, .success files⟩
      | _ =>
        match clear_path fs2 output_file_path decision with
        | (none, ps) => ⟨removeTree temp fs2, ps, .aborted⟩
        | (some fs2', ps) =>
          ⟨removeTree temp (renameTree temp output_file_path fs2'), ps, .success files⟩
  else ⟨fs0, [], .errored .panicked⟩

/-- `decompress.rs` lines 27-175, `decompress_file`.

* `dec` is the abstract family of filter byte-decoders.
* `tarExtract`/`zipExtract`/`sevenzExtract` are the three archive
  extractors applied to the bytes they are given (for 7z, the bytes of
  the file at `input_file_path`, since `decompress_sevenz` reads the
  original path); each yields content written and entry count, or an
  error with partial content.
* `raw` is the byte content of the file at `input_file_path`.
* `formats` is the flattened format list in the order the code receives
  it (innermost first, the spec chain reversed).
* `ask_to_create_file` is modelled from the spec (it is in `utils`, not
  under `src/`): consult the Collision Resolver when the proposed single
  file output exists, else create the file silently. -/
def decompress_file
    (dec : CompressionFormat → List Nat → List Nat)
    (tarExtract zipExtract sevenzExtract :
      List Nat → Except (OuchErr × Content) (Content × Nat))
    (raw : List Nat)
    (formats : List CompressionFormat)
    (fs0 : List Path) (output_dir output_file_path : Path)
    (tempName : String) (decision : Prompt → Bool) : RunResult :=
  if output_dir ∈ fs0 then
    if formats = [CompressionFormat.Zip] then
      smart_unpack (zipExtract raw) fs0 output_dir output_file_path tempName decision
    else
      match split_first_compression_format formats with
      | none => ⟨fs0, [], .errored .panicked⟩
      | some (first_extension, extensions) =>
        match wrapFilters dec extensions raw with
        | .error e => ⟨fs0, [], .errored e⟩
        | .ok reader =>
          match first_extension with
          | .Gzip | .Bzip | .Lz4 | .Lzma | .Snappy | .Zstd =>
            match chain_reader_decoder dec first_extension reader with
            | .error e => ⟨fs0, [], .errored e⟩
            | .ok _decoded =>
              if output_file_path ∈ fs0 then
                if decision (.createFile output_file_path) then
                  ⟨removeTree output_file_path fs0 ++ [output_file_path],
                    [.createFile output_file_path], .success 1⟩
                else ⟨fs0, [.createFile output_file_path], .aborted⟩
              else ⟨fs0 ++ [output_file_path], [], .success 1⟩
          | .Tar =>
            smart_unpack (tarExtract reader) fs0 output_dir output_file_path tempName decision
          | .Zip =>
            if formats.length > 1 then
              if decision .loadWarning then
                let r := smart_unpack (zipExtract reader) fs0 output_dir output_file_path
                  tempName decision
                ⟨r.fs, .loadWarning :: r.prompts, r.outcome⟩
              else ⟨fs0, [.loadWarning], .aborted⟩
            else
              smart_unpack (zipExtract reader) fs0 output_dir output_file_path tempName decision
          | .SevenZip =>
            smart_unpack (sevenzExtract raw) fs0 output_dir output_file_path tempName decision
  else ⟨fs0, [], .errored .panicked⟩

/-- One entry of a 7z archive as `sevenz_rust` exposes it to the extract
callback: its relative path (top component plus rest) and whether it is
a directory entry. -/
structure SevenZEntry where
  top : String
  rest : List String
  isDir : Bool
deriving DecidableEq, Repr

/-- `sevenz.rs` lines 29-37, `decompress_sevenz`, together with the
contract of `sevenz_rust::decompress_file_with_extract_fn`: the callback
is invoked once per archive entry (streamed entries and stream-less
entries such as directories alike); the closure increments `count` on
every invocation and delegates to `default_entry_extract_fn`, which
writes a file for a non-directory entry and creates a directory
otherwise.  Result: the final `count` and the regular files written. -/
def sevenzExtractRun (entries : List SevenZEntry) : Nat × List SevenZEntry :=
  entries.foldl (fun acc e => (acc.1 + 1, if e.isDir then acc.2 else acc.2 ++ [e])) (0, [])

/-- The value `decompress_sevenz` returns. -/
def decompress_sevenz_count (entries : List SevenZEntry) : Nat :=
  (sevenzExtractRun entries).1

/-- The number of regular-file entries actually written to disk. -/
def regularFilesWritten (entries : List SevenZEntry) : Nat :=
  (sevenzExtractRun entries).2.length

/-! ### Path and filesystem lemmas -/

theorem isUnder_iff : ∀ base q : Path, isUnder base q = true ↔ ∃ m, q = base ++ m
  | [], q => by simp [isUnder]
  | _ :: _, [] => by simp [isUnder]
  | a :: as, b :: bs => by
    simp only [isUnder, Bool.and_eq_true, beq_iff_eq, isUnder_iff as bs, List.cons_append,
      List.cons.injEq]
    constructor
    · rintro ⟨h1, m, h2⟩
      exact ⟨m, h1.symm, h2⟩
    · rintro ⟨m, h1, h2⟩
      exact ⟨h1.symm, m, h2⟩

theorem isUnder_append (base m : Path) : isUnder base (base ++ m) = true :=
  (isUnder_iff base (base ++ m)).mpr ⟨m, rfl⟩

theorem isUnder_refl (p : Path) : isUnder p p = true := by
  simpa using isUnder_append p []

theorem length_le_of_isUnder {base q : Path} (h : isUnder base q = true) :
    base.length ≤ q.length := by
  obtain ⟨m, rfl⟩ := (isUnder_iff base q).mp h
  simp

theorem append_drop_of_isUnder {base q : Path} (h : isUnder base q = true) :
    base ++ q.drop base.length = q := by
  obtain ⟨m, rfl⟩ := (isUnder_iff base q).mp h
  rw [List.drop_left]

theorem isUnder_of_isUnder_of_le : ∀ (a b c : Path), isUnder a c = true → isUnder b c = true →
    a.length ≤ b.length → isUnder a b = true
  | [], _, _, _, _, _ => rfl
  | _ :: _, [], _, _, _, hl => by simp at hl
  | _ :: _, _ :: _, [], h1, _, _ => by simp [isUnder] at h1
  | x :: xs, y :: ys, z :: zs, h1, h2, hl => by
    simp only [isUnder, Bool.and_eq_true, beq_iff_eq] at h1 h2 ⊢
    exact ⟨h1.1.trans h2.1.symm, isUnder_of_isUnder_of_le xs ys zs h1.2 h2.2 (by simpa using hl)⟩

theorem mem_removeTree {base q : Path} {fs : List Path} :
    q ∈ removeTree base fs ↔ q ∈ fs ∧ isUnder base q = false := by
  simp [removeTree, List.mem_filter]

theorem not_isUnder_of_mem_removeTree {base q : Path} {fs : List Path}
    (h : q ∈ removeTree base fs) : isUnder base q = false :=
  (mem_removeTree.mp h).2

theorem removeTree_eq_self {base : Path} {fs : List Path}
    (h : ∀ q ∈ fs, isUnder base q = false) : removeTree base fs = fs := by
  refine List.filter_eq_self.mpr (fun q hq => ?_)
  simp [h q hq]

theorem removeTree_append (base : Path) (fs1 fs2 : List Path) :
    removeTree base (fs1 ++ fs2) = removeTree base fs1 ++ removeTree base fs2 := by
  simp [removeTree]

theorem removeTree_eq_nil {base : Path} {fs : List Path}
    (h : ∀ q ∈ fs, isUnder base q = true) : removeTree base fs = [] := by
  refine List.filter_eq_nil_iff.mpr (fun q hq => ?_)
  simp [h q hq]

theorem renameTree_append (src dst : Path) (fs1 fs2 : List Path) :
    renameTree src dst (fs1 ++ fs2) = renameTree src dst fs1 ++ renameTree src dst fs2 := by
  simp [renameTree]

theorem renameTree_eq_self {src dst : Path} : ∀ {fs : List Path},
    (∀ q ∈ fs, isUnder src q = false) → renameTree src dst fs = fs
  | [], _ => rfl
  | q :: fs, h => by
    have h1 := h q (by simp)
    have ih := @renameTree_eq_self src dst fs (fun p hp => h p (List.mem_cons_of_mem q hp))
    simp only [renameTree, List.map_cons, h1, Bool.false_eq_true, if_false] at ih ⊢
    rw [ih]

/-! ### clear_path and smart_unpack structural lemmas -/

theorem clear_path_none_decline {fs : List Path} {p : Path} {d : Prompt → Bool} {ps : List Prompt}
    (h : clear_path fs p d = (none, ps)) :
    ps = [Prompt.collision p] ∧ p ∈ fs ∧ d (Prompt.collision p) = false := by
  unfold clear_path at h
  split_ifs at h with h1 h2
  · simp at h
  · rw [Prod.mk.injEq] at h
    exact ⟨h.2.symm, h1, by simpa using h2⟩
  · simp at h

theorem clear_path_some_approved {fs : List Path} {p : Path} {d : Prompt → Bool}
    {fs' : List Path} {ps : List Prompt} (h : clear_path fs p d = (some fs', ps)) :
    ∀ q ∈ ps, d q = true := by
  unfold clear_path at h
  split_ifs at h with h1 h2
  · rw [Prod.mk.injEq] at h
    intro q hq
    rw [← h.2] at hq
    rw [List.mem_singleton.mp hq]
    exact h2
  · simp at h
  · rw [Prod.mk.injEq] at h
    intro q hq
    rw [← h.2] at hq
    simp at hq

theorem clear_path_prompt_shape {fs : List Path} {p : Path} {d : Prompt → Bool}
    {r : Option (List Path)} {ps : List Prompt} (h : clear_path fs p d = (r, ps)) :
    ∀ q ∈ ps, q = Prompt.collision p := by
  unfold clear_path at h
  split_ifs at h with h1 h2 <;> rw [Prod.mk.injEq] at h <;> intro q hq <;>
    rw [← h.2] at hq
  · exact List.mem_singleton.mp hq
  · exact List.mem_singleton.mp hq
  · simp at hq

theorem removeTree_temp_restore {temp : Path} {fs0 : List Path} (content : Content)
    (h : ∀ q ∈ fs0, isUnder temp q = false) :
    removeTree temp (addContent temp content (fs0 ++ [temp])) = fs0 := by
  unfold addContent
  rw [List.append_assoc, removeTree_append, removeTree_eq_self h, removeTree_eq_nil,
    List.append_nil]
  intro q hq
  rcases List.mem_append.mp hq with hq | hq
  · rw [List.mem_singleton.mp hq]
    exact isUnder_refl temp
  · obtain ⟨c, _, rfl⟩ := List.mem_map.mp hq
    exact isUnder_append temp _

theorem smart_unpack_prompt_shape (unpack : Except (OuchErr × Content) (Content × Nat))
    (fs0 : List Path) (out outFile : Path) (tn : String) (d : Prompt → Bool) :
    ∀ q ∈ (smart_unpack unpack fs0 out outFile tn d).prompts, ∃ p, q = Prompt.collision p := by
  unfold smart_unpack
  split
  · split
    · simp
    · dsimp only
      split
      · split
        · rename_i heq
          intro q hq
          exact ⟨_, clear_path_prompt_shape heq q hq⟩
        · rename_i heq
          intro q hq
          exact ⟨_, clear_path_prompt_shape heq q hq⟩
      · split
        · rename_i heq
          intro q hq
          exact ⟨_, clear_path_prompt_shape heq q hq⟩
        · rename_i heq
          intro q hq
          exact ⟨_, clear_path_prompt_shape heq q hq⟩
  · simp

theorem smart_unpack_declined_abort (unpack : Except (OuchErr × Content) (Content × Nat))
    (fs0 : List Path) (out outFile : Path) (tn : String) (d : Prompt → Bool) (p : Path)
    (hdec : d (Prompt.collision p) = false) :
    Prompt.collision p ∈ (smart_unpack unpack fs0 out outFile tn d).prompts →
    (smart_unpack unpack fs0 out outFile tn d).outcome = .aborted := by
  unfold smart_unpack
  split
  · split
    · simp
    · dsimp only
      split
      · split
        · intro _
          rfl
        · rename_i heq
          intro hmem
          have happ := clear_path_some_approved heq _ hmem
          rw [happ] at hdec
          exact absurd hdec (by simp)
      · split
        · intro _
          rfl
        · rename_i heq
          intro hmem
          have happ := clear_path_some_approved heq _ hmem
          rw [happ] at hdec
          exact absurd hdec (by simp)
  · simp

theorem smart_unpack_abort_fs (unpack : Except (OuchErr × Content) (Content × Nat))
    (fs0 : List Path) (out outFile : Path) (tn : String) (d : Prompt → Bool)
    (hfresh : ∀ q ∈ fs0, isUnder (tempPathOf out tn) q = false) :
    (smart_unpack unpack fs0 out outFile tn d).outcome = .aborted →
    (smart_unpack unpack fs0 out outFile tn d).fs = fs0 := by
  unfold smart_unpack
  split
  · split
    · intro h
      simp at h
    · dsimp only
      split
      · split
        · intro _
          exact removeTree_temp_restore _ hfresh
        · intro h
          simp at h
      · split
        · intro _
          exact removeTree_temp_restore _ hfresh
        · intro h
          simp at h
  · intro h
    simp at h

theorem smart_unpack_temp_removed (unpack : Except (OuchErr × Content) (Content × Nat))
    (fs0 : List Path) (out outFile : Path) (tn : String) (d : Prompt → Bool)
    (hfresh : ∀ q ∈ fs0, isUnder (tempPathOf out tn) q = false) :
    ∀ q ∈ (smart_unpack unpack fs0 out outFile tn d).fs,
      isUnder (tempPathOf out tn) q = false := by
  unfold smart_unpack
  split
  · split
    · exact fun q hq => not_isUnder_of_mem_removeTree hq
    · dsimp only
      split
      · split
        · exact fun q hq => not_isUnder_of_mem_removeTree hq
        · exact fun q hq => not_isUnder_of_mem_removeTree hq
      · split
        · exact fun q hq => not_isUnder_of_mem_removeTree hq
        · exact fun q hq => not_isUnder_of_mem_removeTree hq
  · intro q hq
    exact hfresh q hq

/-! ### Decoder-chaining lemmas -/

theorem wrapLoop_ok (dec : CompressionFormat → List Nat → List Nat) :
    ∀ (l : List CompressionFormat) (r : List Nat), (∀ f ∈ l, isFilterFormat f = true) →
    wrapLoop dec l r = .ok (l.foldl (fun acc f => dec f acc) r)
  | [], r, _ => rfl
  | f :: fs, r, h => by
    have hf : isFilterFormat f = true := h f (by simp)
    have hrec := wrapLoop_ok dec fs (dec f r) (fun g hg => h g (List.mem_cons_of_mem f hg))
    cases f <;> simp [isFilterFormat] at hf <;>
      simpa [wrapLoop, chain_reader_decoder] using hrec

theorem wrapFilters_reverse_eq (dec : CompressionFormat → List Nat → List Nat)
    (l : List CompressionFormat) (raw : List Nat) (h : ∀ f ∈ l, isFilterFormat f = true) :
    wrapFilters dec l.reverse raw = .ok (l.foldl (fun acc f => dec f acc) raw) := by
  unfold wrapFilters
  rw [List.reverse_reverse]
  exact wrapLoop_ok dec l raw h

/-! ### Reductions of `decompress_file` by terminal kind -/

theorem decompress_tar_terminal
    (dec : CompressionFormat → List Nat → List Nat)
    (tarE zipE svE : List Nat → Except (OuchErr × Content) (Content × Nat))
    (raw : List Nat) (chainFilters : List CompressionFormat)
    (fs0 : List Path) (out outFile : Path) (tn : String) (d : Prompt → Bool)
    (hwf : ∀ f ∈ chainFilters, isFilterFormat f = true) :
    decompress_file dec tarE zipE svE raw ((chainFilters ++ [CompressionFormat.Tar]).reverse)
      fs0 out outFile tn d
    = if out ∈ fs0 then
        smart_unpack (tarE (chainFilters.foldl (fun acc f => dec f acc) raw)) fs0 out outFile tn d
      else ⟨fs0, [], .errored .panicked⟩ := by
  have hwrap := wrapFilters_reverse_eq dec chainFilters raw hwf
  by_cases hout : out ∈ fs0 <;>
    simp [decompress_file, split_first_compression_format, hwrap, hout]

theorem decompress_sevenz_terminal
    (dec : CompressionFormat → List Nat → List Nat)
    (tarE zipE svE : List Nat → Except (OuchErr × Content) (Content × Nat))
    (raw : List Nat) (chainFilters : List CompressionFormat)
    (fs0 : List Path) (out outFile : Path) (tn : String) (d : Prompt → Bool)
    (hwf : ∀ f ∈ chainFilters, isFilterFormat f = true) :
    decompress_file dec tarE zipE svE raw ((chainFilters ++ [CompressionFormat.SevenZip]).reverse)
      fs0 out outFile tn d
    = if out ∈ fs0 then smart_unpack (svE raw) fs0 out outFile tn d
      else ⟨fs0, [], .errored .panicked⟩ := by
  have hwrap := wrapFilters_reverse_eq dec chainFilters raw hwf
  by_cases hout : out ∈ fs0 <;>
    simp [decompress_file, split_first_compression_format, hwrap, hout]

theorem decompress_zip_sole
    (dec : CompressionFormat → List Nat → List Nat)
    (tarE zipE svE : List Nat → Except (OuchErr × Content) (Content × Nat))
    (raw : List Nat) (fs0 : List Path) (out outFile : Path) (tn : String) (d : Prompt → Bool) :
    decompress_file dec tarE zipE svE raw [CompressionFormat.Zip] fs0 out outFile tn d
    = if out ∈ fs0 then smart_unpack (zipE raw) fs0 out outFile tn d
      else ⟨fs0, [], .errored .panicked⟩ := by
  by_cases hout : out ∈ fs0 <;> simp [decompress_file, hout]

theorem decompress_zip_with_filters
    (dec : CompressionFormat → List Nat → List Nat)
    (tarE zipE svE : List Nat → Except (OuchErr × Content) (Content × Nat))
    (raw : List Nat) (chainFilters : List CompressionFormat)
    (fs0 : List Path) (out outFile : Path) (tn : String) (d : Prompt → Bool)
    (hne : chainFilters ≠ []) (hwf : ∀ f ∈ chainFilters, isFilterFormat f = true) :
    decompress_file dec tarE zipE svE raw ((chainFilters ++ [CompressionFormat.Zip]).reverse)
      fs0 out outFile tn d
    = if out ∈ fs0 then
        if d Prompt.loadWarning then
          let r := smart_unpack (zipE (chainFilters.foldl (fun acc f => dec f acc) raw))
            fs0 out outFile tn d
          ⟨r.fs, Prompt.loadWarning :: r.prompts, r.outcome⟩
        else ⟨fs0, [Prompt.loadWarning], .aborted⟩
      else ⟨fs0, [], .errored .panicked⟩ := by
  have hwrap := wrapFilters_reverse_eq dec chainFilters raw hwf
  have hpos : 0 < chainFilters.length := List.length_pos.mpr hne
  by_cases hout : out ∈ fs0 <;> by_cases hd : d Prompt.loadWarning = true <;>
    simp [decompress_file, split_first_compression_format, hwrap, hout, hd, hne, hpos]

/-! ### Computation lemmas for the promotion proofs -/

theorem isUnder_eq_false_of_length_lt {base q : Path} (h : q.length < base.length) :
    isUnder base q = false := by
  cases hb : isUnder base q
  · rfl
  · exact absurd (length_le_of_isUnder hb) (by omega)

theorem isUnder_append_same (a : Path) : ∀ b c : Path, isUnder (a ++ b) (a ++ c) = isUnder b c := by
  intro b c
  induction a with
  | nil => rfl
  | cons x xs ih => simp [isUnder, ih]

theorem dedup_const {α : Type} [DecidableEq α] (x : α) :
    ∀ l : List α, (∀ a ∈ l, a = x) → l ≠ [] → l.dedup = [x]
  | [], _, h => absurd rfl h
  | [a], hall, _ => by
    have ha : a = x := hall a (by simp)
    subst ha
    simp
  | a :: b :: t, hall, _ => by
    have ha : a = x := hall a (by simp)
    have hb : b = x := hall b (by simp)
    have hrec := dedup_const x (b :: t) (fun y hy => hall y (List.mem_cons_of_mem a hy)) (by simp)
    have hxmem : x ∈ b :: t := by simp [hb]
    rw [ha, List.dedup_cons_of_mem hxmem, hrec]

theorem filterMap_children {α : Type} (base : Path) (f : α → String) (g : α → List String) :
    ∀ l : List α,
      (l.map (fun c => base ++ (f c :: g c))).filterMap
        (fun q => if isUnder base q then (q.drop base.length).head? else none)
      = l.map f
  | [] => rfl
  | c :: cs => by
    simp only [List.map_cons, List.filterMap_cons, isUnder_append, List.drop_left,
      List.head?_cons, if_true]
    rw [filterMap_children base f g cs]

theorem childNames_extracted (fs : List Path) (temp : Path) (content : Content)
    (hfs : ∀ q ∈ fs, isUnder temp q = false) :
    childNames (addContent temp content (fs ++ [temp])) temp = (content.map Prod.fst).dedup := by
  unfold childNames addContent
  rw [List.append_assoc, List.filterMap_append, List.filterMap_append]
  have h1 : fs.filterMap
      (fun q => if isUnder temp q then (q.drop temp.length).head? else none) = [] := by
    rw [List.filterMap_eq_nil_iff]
    intro q hq
    simp [hfs q hq]
  have h2 : [temp].filterMap
      (fun q => if isUnder temp q then (q.drop temp.length).head? else none) = [] := by
    simp [isUnder_refl, List.drop_length]
  have h3 := filterMap_children temp Prod.fst Prod.snd content
  rw [h1, h2, h3]
  rfl

/-- Reduction of `smart_unpack` to its single-entry branch. -/
theorem smart_unpack_single (content : Content) (n : Nat) (fs0 : List Path)
    (out outFile : Path) (tn : String) (d : Prompt → Bool) (X : String)
    (hout : out ∈ fs0)
    (hnames : childNames (addContent (tempPathOf out tn) content (fs0 ++ [tempPathOf out tn]))
      (tempPathOf out tn) = [X]) :
    smart_unpack (.ok (content, n)) fs0 out outFile tn d
    = match clear_path (addContent (tempPathOf out tn) content (fs0 ++ [tempPathOf out tn]))
        (out ++ [X]) d with
      | (none, ps) =>
        ⟨removeTree (tempPathOf out tn)
          (addContent (tempPathOf out tn) content (fs0 ++ [tempPathOf out tn])), ps, .aborted⟩
      | (some fs2', ps) =>
        ⟨removeTree (tempPathOf out tn)
          (renameTree (tempPathOf out tn ++ [X]) (out ++ [X]) fs2'), ps, .success n⟩ := by
  unfold smart_unpack
  rw [if_pos hout]
  dsimp only
  rw [hnames]

/-- Reduction of `smart_unpack` to its multi-entry branch. -/
theorem smart_unpack_multi (content : Content) (n : Nat) (fs0 : List Path)
    (out outFile : Path) (tn : String) (d : Prompt → Bool)
    (hout : out ∈ fs0)
    (hnames : ∀ X, childNames (addContent (tempPathOf out tn) content
      (fs0 ++ [tempPathOf out tn])) (tempPathOf out tn) ≠ [X]) :
    smart_unpack (.ok (content, n)) fs0 out outFile tn d
    = match clear_path (addContent (tempPathOf out tn) content (fs0 ++ [tempPathOf out tn]))
        outFile d with
      | (none, ps) =>
        ⟨removeTree (tempPathOf out tn)
          (addContent (tempPathOf out tn) content (fs0 ++ [tempPathOf out tn])), ps, .aborted⟩
      | (some fs2', ps) =>
        ⟨removeTree (tempPathOf out tn)
          (renameTree (tempPathOf out tn) outFile fs2'), ps, .success n⟩ := by
  unfold smart_unpack
  rw [if_pos hout]
  dsimp only
  split
  · rename_i heq
    exact absurd heq (hnames _)
  · rfl

theorem isUnder_singleton_cons {a b : String} {l : List String} (h : a ≠ b) :
    isUnder [a] (b :: l) = false := by
  simp [isUnder, h]

theorem isUnder_eq_false_of_incomp {a b : Path} (hab : isUnder a b = false)
    (hba : isUnder b a = false) (l : List String) : isUnder a (b ++ l) = false := by
  cases h : isUnder a (b ++ l)
  · rfl
  · rcases Nat.le_total a.length b.length with hl | hl
    · exact absurd (isUnder_of_isUnder_of_le a b (b ++ l) h (isUnder_append b l) hl)
        (by simp [hab])
    · exact absurd (isUnder_of_isUnder_of_le b a (b ++ l) (isUnder_append b l) h hl)
        (by simp [hba])

/-! ### Concrete instances used by witnesses -/

/-- A decoder family that tags the stream with 0 for zstd and 1 for any
other format, so that application order is visible in the output. -/
def tagDec : CompressionFormat → List Nat → List Nat :=
  fun f l => if f = CompressionFormat.Zstd then 0 :: l else 1 :: l

/-- An extractor that records one entry and reports the input length. -/
def lenExtract : List Nat → Except (OuchErr × Content) (Content × Nat) :=
  fun b => .ok ([("e", [])], b.length)

/-- An extractor returning fixed content and count. -/
def okExtract (c : Content) (n : Nat) : List Nat → Except (OuchErr × Content) (Content × Nat) :=
  fun _ => .ok (c, n)

/-- A decision function that approves everything. -/
def allYes : Prompt → Bool := fun _ => true

/-- A decision function that declines everything. -/
def allNo : Prompt → Bool := fun _ => false

/-! ### Claim theorems -/

/-- C10: under the chain well-formedness precondition every format handed
to `chain_reader_decoder` by the wrapping loop is a filter kind, so the
`unreachable!()` container branch is never taken and composing the
decoder over the filters portion of a well-formed chain always succeeds. -/
theorem c10_container_branch_unreachable
    (dec : CompressionFormat → List Nat → List Nat)
    (extensions : List CompressionFormat) (raw : List Nat)
    (hwf : ∀ f ∈ extensions, isFilterFormat f = true) :
    (∀ f ∈ extensions, ∀ r : List Nat, chain_reader_decoder dec f r ≠ .error .panicked)
    ∧ ∃ decoded, wrapFilters dec extensions raw = .ok decoded := by
  constructor
  · intro f hf r
    have := hwf f hf
    cases f <;> simp [isFilterFormat] at this <;> simp [chain_reader_decoder]
  · refine ⟨(extensions.reverse.foldl (fun acc f => dec f acc) raw), ?_⟩
    unfold wrapFilters
    exact wrapLoop_ok dec extensions.reverse raw (fun f hf => hwf f (List.mem_reverse.mp hf))

/-- C10 witness: a concrete two-filter chain portion composes without
hitting the container branch. -/
theorem c10_container_branch_unreachable_witness :
    (∀ f ∈ [CompressionFormat.Gzip, CompressionFormat.Zstd], isFilterFormat f = true)
    ∧ ((∀ f ∈ [CompressionFormat.Gzip, CompressionFormat.Zstd], ∀ r : List Nat,
          chain_reader_decoder (fun _ l => l) f r ≠ .error .panicked)
       ∧ ∃ decoded, wrapFilters (fun _ l => l)
          [CompressionFormat.Gzip, CompressionFormat.Zstd] [1, 2] = .ok decoded) :=
  ⟨by decide, c10_container_branch_unreachable (fun _ l => l)
    [CompressionFormat.Gzip, CompressionFormat.Zstd] [1, 2] (by decide)⟩

/-- C4: the terminal action is the chain's innermost layer
(`terminal = chain.last()`, the head of the reversed vector the code
receives), and the composed decode pipeline applies the filter layers in
chain order, outermost (closest to the raw on-disk bytes) first; for a
streaming-container terminal the extractor then consumes exactly that
composed stream. -/
theorem c4_chain_order
    (dec : CompressionFormat → List Nat → List Nat)
    (tarE zipE svE : List Nat → Except (OuchErr × Content) (Content × Nat))
    (raw : List Nat) (chainFilters : List CompressionFormat) (terminal : CompressionFormat)
    (fs0 : List Path) (out outFile : Path) (tn : String) (d : Prompt → Bool)
    (hwf : ∀ f ∈ chainFilters, isFilterFormat f = true) :
    (chainFilters ++ [terminal]).getLast? = some terminal
    ∧ split_first_compression_format ((chainFilters ++ [terminal]).reverse)
        = some (terminal, chainFilters.reverse)
    ∧ wrapFilters dec chainFilters.reverse raw
        = .ok (chainFilters.foldl (fun acc f => dec f acc) raw)
    ∧ (terminal = .Tar →
        decompress_file dec tarE zipE svE raw ((chainFilters ++ [terminal]).reverse)
            fs0 out outFile tn d
          = if out ∈ fs0 then
              smart_unpack (tarE (chainFilters.foldl (fun acc f => dec f acc) raw))
                fs0 out outFile tn d
            else ⟨fs0, [], .errored .panicked⟩) := by
  refine ⟨List.getLast?_concat _, ?_, wrapFilters_reverse_eq dec chainFilters raw hwf, ?_⟩
  · rw [List.reverse_append]
    rfl
  · rintro rfl
    exact decompress_tar_terminal dec tarE zipE svE raw chainFilters fs0 out outFile tn d hwf

/-- C4 witness: a concrete zstd-then-gzip filter prefix of a tar chain
is undone outermost-first on a concrete run. -/
theorem c4_chain_order_witness :
    (∀ f ∈ [CompressionFormat.Zstd, CompressionFormat.Gzip], isFilterFormat f = true)
    ∧ (([CompressionFormat.Zstd, CompressionFormat.Gzip]
          ++ [CompressionFormat.Tar]).getLast? = some CompressionFormat.Tar
       ∧ split_first_compression_format (([CompressionFormat.Zstd, CompressionFormat.Gzip]
          ++ [CompressionFormat.Tar]).reverse)
          = some (CompressionFormat.Tar, [CompressionFormat.Zstd, CompressionFormat.Gzip].reverse)
       ∧ wrapFilters tagDec [CompressionFormat.Zstd, CompressionFormat.Gzip].reverse [7]
          = .ok ([CompressionFormat.Zstd, CompressionFormat.Gzip].foldl
              (fun acc f => tagDec f acc) [7])
       ∧ (CompressionFormat.Tar = CompressionFormat.Tar →
          decompress_file tagDec lenExtract (okExtract [] 0) (okExtract [] 0) [7]
              (([CompressionFormat.Zstd, CompressionFormat.Gzip]
                ++ [CompressionFormat.Tar]).reverse) [["dst"]] ["dst"] ["dst", "arch"] "tmp0"
              allYes
            = if ["dst"] ∈ [[("dst" : String)]] then
                smart_unpack (lenExtract ([CompressionFormat.Zstd, CompressionFormat.Gzip].foldl
                    (fun acc f => tagDec f acc) [7]))
                  [["dst"]] ["dst"] ["dst", "arch"] "tmp0" allYes
              else ⟨[["dst"]], [], .errored .panicked⟩)) :=
  ⟨by decide, c4_chain_order tagDec lenExtract (okExtract [] 0) (okExtract [] 0) [7]
    [CompressionFormat.Zstd, CompressionFormat.Gzip] CompressionFormat.Tar
    [["dst"]] ["dst"] ["dst", "arch"] "tmp0" allYes (by decide)⟩

/-- C9: every container extraction writes through a temporary directory
placed inside the destination directory, and on every exit path of
`smart_unpack` — success, typed error, or user abort — that temporary
directory and any of its remaining contents are gone from the final
filesystem. -/
theorem c9_temp_dir_always_removed
    (unpack : Except (OuchErr × Content) (Content × Nat))
    (fs0 : List Path) (out outFile : Path) (tn : String) (d : Prompt → Bool)
    (hfresh : ∀ q ∈ fs0, isUnder (tempPathOf out tn) q = false) :
    isUnder out (tempPathOf out tn) = true
    ∧ ∀ q ∈ (smart_unpack unpack fs0 out outFile tn d).fs,
        isUnder (tempPathOf out tn) q = false :=
  ⟨isUnder_append out [tn], smart_unpack_temp_removed unpack fs0 out outFile tn d hfresh⟩

/-- C9 witness: a failing extraction still leaves no trace of the
temporary directory. -/
theorem c9_temp_dir_always_removed_witness :
    (∀ q ∈ [[("d" : String)]], isUnder (tempPathOf ["d"] "t") q = false)
    ∧ (isUnder ["d"] (tempPathOf ["d"] "t") = true
       ∧ ∀ q ∈ (smart_unpack (.error (.codecError, [("x", [])]))
            [["d"]] ["d"] ["d", "a"] "t" allNo).fs,
          isUnder (tempPathOf ["d"] "t") q = false) :=
  ⟨by decide, c9_temp_dir_always_removed (.error (.codecError, [("x", [])]))
    [["d"]] ["d"] ["d", "a"] "t" allNo (by decide)⟩

/-- C1: when the temporary directory holds exactly one top-level entry
named `X` and the destination directory is empty, smart unpack succeeds,
moves that entry so the destination contains exactly `X` at its top
level (at path `destination_directory ++ [X]`), and the temporary
directory no longer exists. -/
theorem c1_single_entry_promotion
    (out outFile : Path) (X tn : String) (content : Content) (n : Nat) (d : Prompt → Bool)
    (hall : ∀ c ∈ content, c.1 = X) (hmem : (X, ([] : List String)) ∈ content)
    (hXt : X ≠ tn) :
    (smart_unpack (.ok (content, n)) [out] out outFile tn d).outcome = .success n
    ∧ childNames (smart_unpack (.ok (content, n)) [out] out outFile tn d).fs out = [X]
    ∧ (out ++ [X]) ∈ (smart_unpack (.ok (content, n)) [out] out outFile tn d).fs
    ∧ ∀ q ∈ (smart_unpack (.ok (content, n)) [out] out outFile tn d).fs,
        isUnder (tempPathOf out tn) q = false := by
  have hne : content ≠ [] := List.ne_nil_of_mem hmem
  have hf0 : ∀ q ∈ [out], isUnder (tempPathOf out tn) q = false := by
    intro q hq
    rw [List.mem_singleton.mp hq]
    exact isUnder_eq_false_of_length_lt (by simp [tempPathOf])
  have hdedup : (content.map Prod.fst).dedup = [X] := by
    refine dedup_const X _ (fun a ha => ?_) (by simpa using hne)
    obtain ⟨c, hc, rfl⟩ := List.mem_map.mp ha
    exact hall c hc
  have hnames := (childNames_extracted [out] (tempPathOf out tn) content hf0).trans hdedup
  have hred := smart_unpack_single content n [out] out outFile tn d X (by simp) hnames
  have hnotmem : (out ++ [X])
      ∉ addContent (tempPathOf out tn) content ([out] ++ [tempPathOf out tn]) := by
    unfold addContent
    intro hmem2
    rcases List.mem_append.mp hmem2 with h | h
    · rcases List.mem_append.mp h with h | h
      · have hlen := congrArg List.length (List.mem_singleton.mp h)
        simp at hlen
      · have heq := List.mem_singleton.mp h
        unfold tempPathOf at heq
        have := List.append_cancel_left heq
        simp at this
        exact hXt this
    · obtain ⟨c, _, heq⟩ := List.mem_map.mp h
      unfold tempPathOf at heq
      rw [List.append_assoc] at heq
      have := List.append_cancel_left heq
      simp at this
  have hclear : clear_path
      (addContent (tempPathOf out tn) content ([out] ++ [tempPathOf out tn])) (out ++ [X]) d
      = (some (addContent (tempPathOf out tn) content ([out] ++ [tempPathOf out tn])), []) := by
    unfold clear_path
    rw [if_neg hnotmem]
  rw [hclear] at hred
  dsimp only at hred
  have hren1 : renameTree (tempPathOf out tn ++ [X]) (out ++ [X])
      ([out] ++ [tempPathOf out tn]) = [out] ++ [tempPathOf out tn] := by
    apply renameTree_eq_self
    intro q hq
    rcases List.mem_append.mp hq with h | h
    · rw [List.mem_singleton.mp h]
      exact isUnder_eq_false_of_length_lt (by simp [tempPathOf])
    · rw [List.mem_singleton.mp h]
      exact isUnder_eq_false_of_length_lt (by simp [tempPathOf])
  have hren2 : renameTree (tempPathOf out tn ++ [X]) (out ++ [X])
      (content.map (fun c => tempPathOf out tn ++ (c.1 :: c.2)))
      = content.map (fun c => out ++ (X :: c.2)) := by
    unfold renameTree
    rw [List.map_map]
    refine List.map_congr_left (fun c hc => ?_)
    have hc1 : c.1 = X := hall c hc
    simp only [Function.comp_apply]
    have hsh : tempPathOf out tn ++ (c.1 :: c.2) = (tempPathOf out tn ++ [X]) ++ c.2 := by
      rw [hc1]
      simp
    rw [hsh, if_pos (isUnder_append _ _), List.drop_left]
    simp
  have hmapnot : ∀ q ∈ content.map (fun c => out ++ (X :: c.2)),
      isUnder (tempPathOf out tn) q = false := by
    intro q hq
    obtain ⟨c, _, rfl⟩ := List.mem_map.mp hq
    unfold tempPathOf
    rw [isUnder_append_same]
    exact isUnder_singleton_cons (fun hh => hXt hh.symm)
  have hfs : (smart_unpack (.ok (content, n)) [out] out outFile tn d).fs
      = [out] ++ content.map (fun c => out ++ (X :: c.2)) := by
    rw [hred]
    show removeTree _ (renameTree _ _
      (addContent (tempPathOf out tn) content ([out] ++ [tempPathOf out tn]))) = _
    unfold addContent
    rw [renameTree_append, hren1, hren2, removeTree_append, removeTree_append]
    rw [removeTree_eq_self hf0, removeTree_eq_nil (fun q hq => by
      rw [List.mem_singleton.mp hq]
      exact isUnder_refl _), removeTree_eq_self hmapnot]
    simp
  refine ⟨by rw [hred], ?_, ?_, ?_⟩
  · rw [hfs]
    unfold childNames
    rw [List.filterMap_append]
    have h1 : [out].filterMap
        (fun q => if isUnder out q then (q.drop out.length).head? else none) = [] := by
      simp [isUnder_refl, List.drop_length]
    have h2 := filterMap_children out (fun _ => X) Prod.snd content
    rw [h1, h2]
    refine dedup_const X _ (fun a ha => ?_) (by simpa using hne)
    obtain ⟨c, _, rfl⟩ := List.mem_map.mp ha
    rfl
  · rw [hfs]
    refine List.mem_append.mpr (Or.inr ?_)
    exact List.mem_map.mpr ⟨(X, []), hmem, rfl⟩
  · rw [hfs]
    intro q hq
    rcases List.mem_append.mp hq with h | h
    · rw [List.mem_singleton.mp h]
      exact isUnder_eq_false_of_length_lt (by simp [tempPathOf])
    · exact hmapnot q h

/-- C1 witness: a one-file archive `X` extracted into an empty
destination lands at `dest/X` with the temporary directory gone. -/
theorem c1_single_entry_promotion_witness :
    (∀ c ∈ [(("X" : String), ([] : List String))], c.1 = "X")
    ∧ (("X", ([] : List String)) ∈ [(("X" : String), ([] : List String))])
    ∧ ("X" : String) ≠ "t"
    ∧ ((smart_unpack (.ok ([("X", [])], 1)) [["d"]] ["d"] ["d", "a"] "t" allYes).outcome
        = .success 1
       ∧ childNames (smart_unpack (.ok ([("X", [])], 1))
          [["d"]] ["d"] ["d", "a"] "t" allYes).fs ["d"] = ["X"]
       ∧ (["d"] ++ ["X"]) ∈ (smart_unpack (.ok ([("X", [])], 1))
          [["d"]] ["d"] ["d", "a"] "t" allYes).fs
       ∧ ∀ q ∈ (smart_unpack (.ok ([("X", [])], 1)) [["d"]] ["d"] ["d", "a"] "t" allYes).fs,
          isUnder (tempPathOf ["d"] "t") q = false) :=
  ⟨by decide, by decide, by decide,
    c1_single_entry_promotion ["d"] ["d", "a"] "X" "t" [("X", [])] 1 allYes
      (by decide) (by decide) (by decide)⟩

/-- C2: when the temporary directory holds several (or zero) top-level
entries, smart unpack promotes the whole temporary directory by renaming
it to the proposed multi-entry path: the proposed path afterwards exists
and its top-level entries are exactly the extracted entry names (any
pre-existing contents of the target were cleared, not merged), the
original temporary directory is gone, and the run succeeds with the
extractor's count.  The hypothesis `hcoh` states filesystem coherence:
when the proposed target does not exist, nothing lies beneath it. -/
theorem c2_multi_entry_promotion
    (fs0 : List Path) (out outFile : Path) (tn : String) (content : Content) (n : Nat)
    (d : Prompt → Bool)
    (hout : out ∈ fs0)
    (hfresh : ∀ q ∈ fs0, isUnder (tempPathOf out tn) q = false)
    (hlen : (content.map Prod.fst).dedup.length ≠ 1)
    (hdec : d (Prompt.collision outFile) = true)
    (h2 : isUnder (tempPathOf out tn) outFile = false)
    (h3 : isUnder outFile (tempPathOf out tn) = false)
    (hcoh : outFile ∉ fs0 → ∀ q ∈ fs0, isUnder outFile q = false) :
    (smart_unpack (.ok (content, n)) fs0 out outFile tn d).outcome = .success n
    ∧ childNames (smart_unpack (.ok (content, n)) fs0 out outFile tn d).fs outFile
        = (content.map Prod.fst).dedup
    ∧ outFile ∈ (smart_unpack (.ok (content, n)) fs0 out outFile tn d).fs
    ∧ ∀ q ∈ (smart_unpack (.ok (content, n)) fs0 out outFile tn d).fs,
        isUnder (tempPathOf out tn) q = false := by
  have hnames := childNames_extracted fs0 (tempPathOf out tn) content hfresh
  have hnot : ∀ X, childNames (addContent (tempPathOf out tn) content
      (fs0 ++ [tempPathOf out tn])) (tempPathOf out tn) ≠ [X] := by
    intro X h
    rw [hnames] at h
    exact hlen (by rw [h]; rfl)
  have hred := smart_unpack_multi content n fs0 out outFile tn d hout hnot
  have hAnot : ∀ q ∈ content.map (fun c => tempPathOf out tn ++ (c.1 :: c.2)),
      isUnder outFile q = false := by
    intro q hq
    obtain ⟨c, _, rfl⟩ := List.mem_map.mp hq
    exact isUnder_eq_false_of_incomp h3 h2 _
  have hBnot : ∀ q ∈ content.map (fun c => outFile ++ (c.1 :: c.2)),
      isUnder (tempPathOf out tn) q = false := by
    intro q hq
    obtain ⟨c, _, rfl⟩ := List.mem_map.mp hq
    exact isUnder_eq_false_of_incomp h2 h3 _
  have main : ∀ G : List Path, (∀ q ∈ G, isUnder (tempPathOf out tn) q = false) →
      removeTree (tempPathOf out tn) (renameTree (tempPathOf out tn) outFile
        ((G ++ [tempPathOf out tn]) ++ content.map (fun c => tempPathOf out tn ++ (c.1 :: c.2))))
      = (G ++ [outFile]) ++ content.map (fun c => outFile ++ (c.1 :: c.2)) := by
    intro G hG2
    rw [renameTree_append, renameTree_append, renameTree_eq_self hG2]
    have hr1 : renameTree (tempPathOf out tn) outFile [tempPathOf out tn] = [outFile] := by
      unfold renameTree
      simp [isUnder_refl, List.drop_length]
    have hr2 : renameTree (tempPathOf out tn) outFile
        (content.map (fun c => tempPathOf out tn ++ (c.1 :: c.2)))
        = content.map (fun c => outFile ++ (c.1 :: c.2)) := by
      unfold renameTree
      rw [List.map_map]
      refine List.map_congr_left (fun c _ => ?_)
      simp only [Function.comp_apply]
      rw [if_pos (isUnder_append _ _), List.drop_left]
    rw [hr1, hr2, removeTree_append, removeTree_append, removeTree_eq_self hG2]
    have hrm1 : removeTree (tempPathOf out tn) [outFile] = [outFile] := by
      unfold removeTree
      simp [h2]
    rw [hrm1, removeTree_eq_self hBnot]
  have hchild : ∀ G : List Path, (∀ q ∈ G, isUnder outFile q = false) →
      childNames ((G ++ [outFile]) ++ content.map (fun c => outFile ++ (c.1 :: c.2))) outFile
      = (content.map Prod.fst).dedup := by
    intro G hG1
    unfold childNames
    rw [List.filterMap_append, List.filterMap_append]
    have hg : G.filterMap
        (fun q => if isUnder outFile q then (q.drop outFile.length).head? else none) = [] := by
      rw [List.filterMap_eq_nil_iff]
      intro q hq
      simp [hG1 q hq]
    have ho : [outFile].filterMap
        (fun q => if isUnder outFile q then (q.drop outFile.length).head? else none) = [] := by
      simp [isUnder_refl, List.drop_length]
    rw [hg, ho, filterMap_children outFile Prod.fst Prod.snd content]
    rfl
  have hnotu : ∀ G : List Path, (∀ q ∈ G, isUnder (tempPathOf out tn) q = false) →
      ∀ q ∈ (G ++ [outFile]) ++ content.map (fun c => outFile ++ (c.1 :: c.2)),
        isUnder (tempPathOf out tn) q = false := by
    intro G hG2 q hq
    rcases List.mem_append.mp hq with h | h
    · rcases List.mem_append.mp h with h | h
      · exact hG2 q h
      · rw [List.mem_singleton.mp h]
        exact h2
    · exact hBnot q h
  by_cases hm : outFile ∈ fs0
  · have hm2 : outFile ∈ addContent (tempPathOf out tn) content (fs0 ++ [tempPathOf out tn]) := by
      unfold addContent
      exact List.mem_append.mpr (Or.inl (List.mem_append.mpr (Or.inl hm)))
    have hclear : clear_path
        (addContent (tempPathOf out tn) content (fs0 ++ [tempPathOf out tn])) outFile d
        = (some (removeTree outFile
            (addContent (tempPathOf out tn) content (fs0 ++ [tempPathOf out tn]))),
          [Prompt.collision outFile]) := by
      unfold clear_path
      rw [if_pos hm2, if_pos hdec]
    rw [hclear] at hred
    dsimp only at hred
    have hsplit : removeTree outFile
        (addContent (tempPathOf out tn) content (fs0 ++ [tempPathOf out tn]))
        = (removeTree outFile fs0 ++ [tempPathOf out tn])
          ++ content.map (fun c => tempPathOf out tn ++ (c.1 :: c.2)) := by
      unfold addContent
      have e1 : removeTree outFile [tempPathOf out tn] = [tempPathOf out tn] :=
        removeTree_eq_self (fun q hq => by rw [List.mem_singleton.mp hq]; exact h3)
      rw [removeTree_append, removeTree_append, e1, removeTree_eq_self hAnot]
    rw [hsplit] at hred
    have hfin := main (removeTree outFile fs0) (fun q hq => hfresh q (mem_removeTree.mp hq).1)
    rw [hfin] at hred
    exact ⟨by rw [hred],
      by rw [hred]; exact hchild _ (fun q hq => not_isUnder_of_mem_removeTree hq),
      by rw [hred]; simp,
      by rw [hred]; exact hnotu _ (fun q hq => hfresh q (mem_removeTree.mp hq).1)⟩
  · have hm2 : outFile
        ∉ addContent (tempPathOf out tn) content (fs0 ++ [tempPathOf out tn]) := by
      unfold addContent
      intro hmem2
      rcases List.mem_append.mp hmem2 with h | h
      · rcases List.mem_append.mp h with h | h
        · exact hm h
        · rw [List.mem_singleton.mp h] at h2
          rw [isUnder_refl] at h2
          simp at h2
      · obtain ⟨c, _, heq⟩ := List.mem_map.mp h
        rw [← heq] at h2
        rw [isUnder_append] at h2
        simp at h2
    have hclear : clear_path
        (addContent (tempPathOf out tn) content (fs0 ++ [tempPathOf out tn])) outFile d
        = (some (addContent (tempPathOf out tn) content (fs0 ++ [tempPathOf out tn])), []) := by
      unfold clear_path
      rw [if_neg hm2]
    rw [hclear] at hred
    dsimp only at hred
    have hshape : addContent (tempPathOf out tn) content (fs0 ++ [tempPathOf out tn])
        = (fs0 ++ [tempPathOf out tn])
          ++ content.map (fun c => tempPathOf out tn ++ (c.1 :: c.2)) := rfl
    rw [hshape] at hred
    have hcoh' := hcoh hm
    have hfin := main fs0 hfresh
    rw [hfin] at hred
    exact ⟨by rw [hred], by rw [hred]; exact hchild fs0 hcoh', by rw [hred]; simp,
      by rw [hred]; exact hnotu fs0 hfresh⟩

/-- C2 witness: a three-entry archive {A, B, C} lands as
`dest/arch/{A, B, C}` with the temporary directory gone. -/
theorem c2_multi_entry_promotion_witness :
    (["d"] ∈ [[("d" : String)]])
    ∧ (∀ q ∈ [[("d" : String)]], isUnder (tempPathOf ["d"] "t") q = false)
    ∧ (([(("A" : String), ([] : List String)), ("B", []), ("C", [])].map
        Prod.fst).dedup.length ≠ 1)
    ∧ allYes (Prompt.collision ["d", "arch"]) = true
    ∧ isUnder (tempPathOf ["d"] "t") ["d", "arch"] = false
    ∧ isUnder ["d", "arch"] (tempPathOf ["d"] "t") = false
    ∧ (["d", "arch"] ∉ [[("d" : String)]] →
        ∀ q ∈ [[("d" : String)]], isUnder ["d", "arch"] q = false)
    ∧ ((smart_unpack (.ok ([("A", []), ("B", []), ("C", [])], 3))
          [["d"]] ["d"] ["d", "arch"] "t" allYes).outcome = .success 3
       ∧ childNames (smart_unpack (.ok ([("A", []), ("B", []), ("C", [])], 3))
            [["d"]] ["d"] ["d", "arch"] "t" allYes).fs ["d", "arch"]
          = ([(("A" : String), ([] : List String)), ("B", []), ("C", [])].map Prod.fst).dedup
       ∧ ["d", "arch"] ∈ (smart_unpack (.ok ([("A", []), ("B", []), ("C", [])], 3))
            [["d"]] ["d"] ["d", "arch"] "t" allYes).fs
       ∧ ∀ q ∈ (smart_unpack (.ok ([("A", []), ("B", []), ("C", [])], 3))
            [["d"]] ["d"] ["d", "arch"] "t" allYes).fs,
          isUnder (tempPathOf ["d"] "t") q = false) :=
  ⟨by decide, by decide, by decide, by decide, by decide, by decide, by decide,
    c2_multi_entry_promotion [["d"]] ["d"] ["d", "arch"] "t"
      [("A", []), ("B", []), ("C", [])] 3 allYes (by decide) (by decide) (by decide)
      (by decide) (by decide) (by decide) (by decide)⟩

theorem smart_unpack_ok_outcome (content : Content) (n : Nat) (fs0 : List Path)
    (out outFile : Path) (tn : String) (d : Prompt → Bool) (hout : out ∈ fs0) :
    (smart_unpack (.ok (content, n)) fs0 out outFile tn d).outcome = .success n
    ∨ (smart_unpack (.ok (content, n)) fs0 out outFile tn d).outcome = .aborted := by
  unfold smart_unpack
  rw [if_pos hout]
  dsimp only
  split
  · split
    · exact Or.inr rfl
    · exact Or.inl rfl
  · split
    · exact Or.inr rfl
    · exact Or.inl rfl

/-- C5: with the self-contained 7z container as terminal the Stream
Decoder Composer is bypassed entirely: the run does not depend on the
decoder family and coincides with the run on the sole-layer chain
`[SevenZip]`; extraction works on the original file's bytes, and a
successful extraction reports the extractor's entry count (unless the
collision resolver aborted or the destination-existence assertion
panicked). -/
theorem c5_sevenz_direct
    (dec dec' : CompressionFormat → List Nat → List Nat)
    (tarE zipE svE : List Nat → Except (OuchErr × Content) (Content × Nat))
    (raw : List Nat) (chainFilters : List CompressionFormat)
    (fs0 : List Path) (out outFile : Path) (tn : String) (d : Prompt → Bool)
    (hwf : ∀ f ∈ chainFilters, isFilterFormat f = true) :
    decompress_file dec tarE zipE svE raw
        ((chainFilters ++ [CompressionFormat.SevenZip]).reverse) fs0 out outFile tn d
      = decompress_file dec' tarE zipE svE raw [CompressionFormat.SevenZip] fs0 out outFile tn d
    ∧ decompress_file dec tarE zipE svE raw
        ((chainFilters ++ [CompressionFormat.SevenZip]).reverse) fs0 out outFile tn d
      = (if out ∈ fs0 then smart_unpack (svE raw) fs0 out outFile tn d
         else ⟨fs0, [], .errored .panicked⟩)
    ∧ (∀ content n, svE raw = .ok (content, n) →
        (decompress_file dec tarE zipE svE raw
          ((chainFilters ++ [CompressionFormat.SevenZip]).reverse) fs0 out outFile tn d).outcome
            = .success n
        ∨ (decompress_file dec tarE zipE svE raw
          ((chainFilters ++ [CompressionFormat.SevenZip]).reverse) fs0 out outFile tn d).outcome
            = .aborted
        ∨ (decompress_file dec tarE zipE svE raw
          ((chainFilters ++ [CompressionFormat.SevenZip]).reverse) fs0 out outFile tn d).outcome
            = .errored .panicked) := by
  have h1 := decompress_sevenz_terminal dec tarE zipE svE raw chainFilters
    fs0 out outFile tn d hwf
  have h2 := decompress_sevenz_terminal dec' tarE zipE svE raw []
    fs0 out outFile tn d (by simp)
  simp only [List.nil_append, List.reverse_singleton] at h2
  refine ⟨h1.trans h2.symm, h1, ?_⟩
  intro content n hsv
  rw [h1]
  by_cases hout : out ∈ fs0
  · rw [if_pos hout, hsv]
    rcases smart_unpack_ok_outcome content n fs0 out outFile tn d hout with h | h
    · exact Or.inl h
    · exact Or.inr (Or.inl h)
  · rw [if_neg hout]
    exact Or.inr (Or.inr rfl)

/-- C5 witness: a 7z chain on a concrete filesystem is decoded
identically with two different decoder families, straight from the
original bytes. -/
theorem c5_sevenz_direct_witness :
    (∀ f ∈ [CompressionFormat.Gzip], isFilterFormat f = true)
    ∧ (decompress_file tagDec (okExtract [] 0) (okExtract [] 0) lenExtract [3, 4]
          (([CompressionFormat.Gzip] ++ [CompressionFormat.SevenZip]).reverse)
          [["d"]] ["d"] ["d", "a"] "t" allYes
        = decompress_file (fun _ l => l) (okExtract [] 0) (okExtract [] 0) lenExtract [3, 4]
          [CompressionFormat.SevenZip] [["d"]] ["d"] ["d", "a"] "t" allYes
       ∧ decompress_file tagDec (okExtract [] 0) (okExtract [] 0) lenExtract [3, 4]
          (([CompressionFormat.Gzip] ++ [CompressionFormat.SevenZip]).reverse)
          [["d"]] ["d"] ["d", "a"] "t" allYes
        = (if ["d"] ∈ [[("d" : String)]] then
            smart_unpack (lenExtract [3, 4]) [["d"]] ["d"] ["d", "a"] "t" allYes
           else ⟨[["d"]], [], .errored .panicked⟩)
       ∧ (∀ content n, lenExtract [3, 4] = .ok (content, n) →
          (decompress_file tagDec (okExtract [] 0) (okExtract [] 0) lenExtract [3, 4]
            (([CompressionFormat.Gzip] ++ [CompressionFormat.SevenZip]).reverse)
            [["d"]] ["d"] ["d", "a"] "t" allYes).outcome = .success n
          ∨ (decompress_file tagDec (okExtract [] 0) (okExtract [] 0) lenExtract [3, 4]
            (([CompressionFormat.Gzip] ++ [CompressionFormat.SevenZip]).reverse)
            [["d"]] ["d"] ["d", "a"] "t" allYes).outcome = .aborted
          ∨ (decompress_file tagDec (okExtract [] 0) (okExtract [] 0) lenExtract [3, 4]
            (([CompressionFormat.Gzip] ++ [CompressionFormat.SevenZip]).reverse)
            [["d"]] ["d"] ["d", "a"] "t" allYes).outcome = .errored .panicked)) :=
  ⟨by decide, c5_sevenz_direct tagDec (fun _ l => l) (okExtract [] 0) (okExtract [] 0)
    lenExtract [3, 4] [CompressionFormat.Gzip] [["d"]] ["d"] ["d", "a"] "t" allYes (by decide)⟩

/-- C7: for a chain with at least one filter before the seekable zip
terminal, the in-memory-load warning is the first interactive question
and is issued exactly once; declining it aborts the run with the
filesystem untouched, before any extraction attempt. -/
theorem c7_zip_filters_load_warning
    (dec : CompressionFormat → List Nat → List Nat)
    (tarE zipE svE : List Nat → Except (OuchErr × Content) (Content × Nat))
    (raw : List Nat) (chainFilters : List CompressionFormat)
    (fs0 : List Path) (out outFile : Path) (tn : String) (d : Prompt → Bool)
    (hne : chainFilters ≠ []) (hwf : ∀ f ∈ chainFilters, isFilterFormat f = true)
    (hout : out ∈ fs0) :
    (∃ ps, (decompress_file dec tarE zipE svE raw
        ((chainFilters ++ [CompressionFormat.Zip]).reverse) fs0 out outFile tn d).prompts
        = Prompt.loadWarning :: ps ∧ Prompt.loadWarning ∉ ps)
    ∧ (d Prompt.loadWarning = false →
        decompress_file dec tarE zipE svE raw
          ((chainFilters ++ [CompressionFormat.Zip]).reverse) fs0 out outFile tn d
        = ⟨fs0, [Prompt.loadWarning], .aborted⟩) := by
  have hred := decompress_zip_with_filters dec tarE zipE svE raw chainFilters
    fs0 out outFile tn d hne hwf
  rw [if_pos hout] at hred
  by_cases hd : d Prompt.loadWarning = true
  · rw [if_pos hd] at hred
    dsimp only at hred
    constructor
    · refine ⟨(smart_unpack (zipE (chainFilters.foldl (fun acc f => dec f acc) raw))
        fs0 out outFile tn d).prompts, by rw [hred], ?_⟩
      intro hmem
      obtain ⟨p, hp⟩ := smart_unpack_prompt_shape
        (zipE (chainFilters.foldl (fun acc f => dec f acc) raw)) fs0 out outFile tn d _ hmem
      simp at hp
    · intro hdf
      rw [hdf] at hd
      simp at hd
  · have hdf : d Prompt.loadWarning = false := by
      revert hd
      cases d Prompt.loadWarning <;> simp
    rw [if_neg hd] at hred
    exact ⟨⟨[], by rw [hred], by simp⟩, fun _ => hred⟩

/-- C7 witness: declining the load warning for a gzip-wrapped zip chain
aborts with the load warning as the only prompt. -/
theorem c7_zip_filters_load_warning_witness :
    ([CompressionFormat.Gzip] ≠ ([] : List CompressionFormat))
    ∧ (∀ f ∈ [CompressionFormat.Gzip], isFilterFormat f = true)
    ∧ (["d"] ∈ [[("d" : String)]])
    ∧ ((∃ ps, (decompress_file tagDec (okExtract [] 0) lenExtract (okExtract [] 0) [9]
          (([CompressionFormat.Gzip] ++ [CompressionFormat.Zip]).reverse)
          [["d"]] ["d"] ["d", "a"] "t" allNo).prompts
          = Prompt.loadWarning :: ps ∧ Prompt.loadWarning ∉ ps)
       ∧ (allNo Prompt.loadWarning = false →
          decompress_file tagDec (okExtract [] 0) lenExtract (okExtract [] 0) [9]
            (([CompressionFormat.Gzip] ++ [CompressionFormat.Zip]).reverse)
            [["d"]] ["d"] ["d", "a"] "t" allNo
          = ⟨[["d"]], [Prompt.loadWarning], .aborted⟩)) :=
  ⟨by decide, by decide, by decide,
    c7_zip_filters_load_warning tagDec (okExtract [] 0) lenExtract (okExtract [] 0) [9]
      [CompressionFormat.Gzip] [["d"]] ["d"] ["d", "a"] "t" allNo
      (by decide) (by decide) (by decide)⟩

/-- C8: for the sole-layer zip chain, extraction reads the original file
bytes directly (the preferred random-access path), the run does not
depend on the decoder family, and no in-memory-load warning is ever
issued. -/
theorem c8_zip_sole_direct
    (dec dec' : CompressionFormat → List Nat → List Nat)
    (tarE zipE svE : List Nat → Except (OuchErr × Content) (Content × Nat))
    (raw : List Nat) (fs0 : List Path) (out outFile : Path) (tn : String) (d : Prompt → Bool) :
    decompress_file dec tarE zipE svE raw [CompressionFormat.Zip] fs0 out outFile tn d
      = decompress_file dec' tarE zipE svE raw [CompressionFormat.Zip] fs0 out outFile tn d
    ∧ Prompt.loadWarning ∉ (decompress_file dec tarE zipE svE raw [CompressionFormat.Zip]
        fs0 out outFile tn d).prompts
    ∧ decompress_file dec tarE zipE svE raw [CompressionFormat.Zip] fs0 out outFile tn d
      = (if out ∈ fs0 then smart_unpack (zipE raw) fs0 out outFile tn d
         else ⟨fs0, [], .errored .panicked⟩) := by
  have h1 := decompress_zip_sole dec tarE zipE svE raw fs0 out outFile tn d
  have h2 := decompress_zip_sole dec' tarE zipE svE raw fs0 out outFile tn d
  refine ⟨h1.trans h2.symm, ?_, h1⟩
  rw [h1]
  by_cases hout : out ∈ fs0
  · rw [if_pos hout]
    intro hmem
    obtain ⟨p, hp⟩ := smart_unpack_prompt_shape (zipE raw) fs0 out outFile tn d _ hmem
    simp at hp
  · rw [if_neg hout]
    simp

/-- Exhaustive description of the possible results of `decompress_file`:
a panic or codec error with nothing written and no prompt, a plain
`smart_unpack` run, a `smart_unpack` run behind an accepted load
warning, an abort at the declined load warning, the three endings of the
single-file path. -/
theorem decompress_file_cases
    (dec : CompressionFormat → List Nat → List Nat)
    (tarE zipE svE : List Nat → Except (OuchErr × Content) (Content × Nat))
    (raw : List Nat) (formats : List CompressionFormat)
    (fs0 : List Path) (out outFile : Path) (tn : String) (d : Prompt → Bool) :
    (∃ e, decompress_file dec tarE zipE svE raw formats fs0 out outFile tn d
        = ⟨fs0, [], .errored e⟩)
    ∨ (∃ u, decompress_file dec tarE zipE svE raw formats fs0 out outFile tn d
        = smart_unpack u fs0 out outFile tn d)
    ∨ (∃ u, d Prompt.loadWarning = true
        ∧ decompress_file dec tarE zipE svE raw formats fs0 out outFile tn d
          = ⟨(smart_unpack u fs0 out outFile tn d).fs,
              Prompt.loadWarning :: (smart_unpack u fs0 out outFile tn d).prompts,
              (smart_unpack u fs0 out outFile tn d).outcome⟩)
    ∨ (d Prompt.loadWarning = false
        ∧ decompress_file dec tarE zipE svE raw formats fs0 out outFile tn d
          = ⟨fs0, [Prompt.loadWarning], .aborted⟩)
    ∨ (outFile ∈ fs0 ∧ d (Prompt.createFile outFile) = true
        ∧ decompress_file dec tarE zipE svE raw formats fs0 out outFile tn d
          = ⟨removeTree outFile fs0 ++ [outFile], [Prompt.createFile outFile], .success 1⟩)
    ∨ (outFile ∈ fs0 ∧ d (Prompt.createFile outFile) = false
        ∧ decompress_file dec tarE zipE svE raw formats fs0 out outFile tn d
          = ⟨fs0, [Prompt.createFile outFile], .aborted⟩)
    ∨ (decompress_file dec tarE zipE svE raw formats fs0 out outFile tn d
        = ⟨fs0 ++ [outFile], [], .success 1⟩) := by
  unfold decompress_file
  split
  · split
    · exact Or.inr (Or.inl ⟨zipE raw, rfl⟩)
    · split
      · exact Or.inl ⟨_, rfl⟩
      · split
        · exact Or.inl ⟨_, rfl⟩
        · split
          case _ =>
            dsimp only [chain_reader_decoder]
            split
            · split
              · rename_i h1 h2
                exact Or.inr (Or.inr (Or.inr (Or.inr (Or.inl ⟨h1, h2, rfl⟩))))
              · rename_i h1 h2
                exact Or.inr (Or.inr (Or.inr (Or.inr (Or.inr (Or.inl
                  ⟨h1, by simpa using h2, rfl⟩)))))
            · exact Or.inr (Or.inr (Or.inr (Or.inr (Or.inr (Or.inr rfl)))))
          case _ =>
            dsimp only [chain_reader_decoder]
            split
            · split
              · rename_i h1 h2
                exact Or.inr (Or.inr (Or.inr (Or.inr (Or.inl ⟨h1, h2, rfl⟩))))
              · rename_i h1 h2
                exact Or.inr (Or.inr (Or.inr (Or.inr (Or.inr (Or.inl
                  ⟨h1, by simpa using h2, rfl⟩)))))
            · exact Or.inr (Or.inr (Or.inr (Or.inr (Or.inr (Or.inr rfl)))))
          case _ =>
            dsimp only [chain_reader_decoder]
            split
            · split
              · rename_i h1 h2
                exact Or.inr (Or.inr (Or.inr (Or.inr (Or.inl ⟨h1, h2, rfl⟩))))
              · rename_i h1 h2
                exact Or.inr (Or.inr (Or.inr (Or.inr (Or.inr (Or.inl
                  ⟨h1, by simpa using h2, rfl⟩)))))
            · exact Or.inr (Or.inr (Or.inr (Or.inr (Or.inr (Or.inr rfl)))))
          case _ =>
            dsimp only [chain_reader_decoder]
            split
            · split
              · rename_i h1 h2
                exact Or.inr (Or.inr (Or.inr (Or.inr (Or.inl ⟨h1, h2, rfl⟩))))
              · rename_i h1 h2
                exact Or.inr (Or.inr (Or.inr (Or.inr (Or.inr (Or.inl
                  ⟨h1, by simpa using h2, rfl⟩)))))
            · exact Or.inr (Or.inr (Or.inr (Or.inr (Or.inr (Or.inr rfl)))))
          case _ =>
            dsimp only [chain_reader_decoder]
            split
            · split
              · rename_i h1 h2
                exact Or.inr (Or.inr (Or.inr (Or.inr (Or.inl ⟨h1, h2, rfl⟩))))
              · rename_i h1 h2
                exact Or.inr (Or.inr (Or.inr (Or.inr (Or.inr (Or.inl
                  ⟨h1, by simpa using h2, rfl⟩)))))
            · exact Or.inr (Or.inr (Or.inr (Or.inr (Or.inr (Or.inr rfl)))))
          case _ =>
            dsimp only [chain_reader_decoder]
            split
            · split
              · rename_i h1 h2
                exact Or.inr (Or.inr (Or.inr (Or.inr (Or.inl ⟨h1, h2, rfl⟩))))
              · rename_i h1 h2
                exact Or.inr (Or.inr (Or.inr (Or.inr (Or.inr (Or.inl
                  ⟨h1, by simpa using h2, rfl⟩)))))
            · exact Or.inr (Or.inr (Or.inr (Or.inr (Or.inr (Or.inr rfl)))))
          case _ =>
            exact Or.inr (Or.inl ⟨tarE _, rfl⟩)
          case _ =>
            split
            · split
              · rename_i hd
                exact Or.inr (Or.inr (Or.inl ⟨zipE _, hd, rfl⟩))
              · rename_i hd
                exact Or.inr (Or.inr (Or.inr (Or.inl ⟨by simpa using hd, rfl⟩)))
            · exact Or.inr (Or.inl ⟨zipE _, rfl⟩)
          case _ =>
            exact Or.inr (Or.inl ⟨svE raw, rfl⟩)
  · exact Or.inl ⟨.panicked, rfl⟩

/-- C3: whenever the collision resolver (or the file-creation question)
declines — at the single-file output path, the single-entry promotion
target, or the multi-entry promotion target — the whole operation ends
in the `aborted` outcome, which is distinct from every success outcome;
and whenever the run aborts, the filesystem is exactly the initial one:
the destination's pre-existing contents are unchanged and the (fresh)
temporary directory is gone. -/
theorem c3_decline_clean_abort
    (dec : CompressionFormat → List Nat → List Nat)
    (tarE zipE svE : List Nat → Except (OuchErr × Content) (Content × Nat))
    (raw : List Nat) (formats : List CompressionFormat)
    (fs0 : List Path) (out outFile : Path) (tn : String) (d : Prompt → Bool)
    (hfresh : ∀ q ∈ fs0, isUnder (tempPathOf out tn) q = false) :
    ((decompress_file dec tarE zipE svE raw formats fs0 out outFile tn d).outcome = .aborted →
      (decompress_file dec tarE zipE svE raw formats fs0 out outFile tn d).fs = fs0)
    ∧ (∀ p, Prompt.collision p
        ∈ (decompress_file dec tarE zipE svE raw formats fs0 out outFile tn d).prompts →
        d (Prompt.collision p) = false →
        (decompress_file dec tarE zipE svE raw formats fs0 out outFile tn d).outcome = .aborted)
    ∧ (∀ p, Prompt.createFile p
        ∈ (decompress_file dec tarE zipE svE raw formats fs0 out outFile tn d).prompts →
        d (Prompt.createFile p) = false →
        (decompress_file dec tarE zipE svE raw formats fs0 out outFile tn d).outcome = .aborted)
    ∧ (∀ m, (Outcome.aborted = Outcome.success m) → False) := by
  rcases decompress_file_cases dec tarE zipE svE raw formats fs0 out outFile tn d with
    ⟨e, hr⟩ | ⟨u, hr⟩ | ⟨u, hd, hr⟩ | ⟨hd, hr⟩ | ⟨h1, h2, hr⟩ | ⟨h1, h2, hr⟩ | hr
  · refine ⟨?_, ?_, ?_, fun m h => by simp at h⟩
    · rw [hr]
      intro h
      simp at h
    · rw [hr]
      intro p hp
      simp at hp
    · rw [hr]
      intro p hp
      simp at hp
  · refine ⟨?_, ?_, ?_, fun m h => by simp at h⟩
    · rw [hr]
      exact smart_unpack_abort_fs u fs0 out outFile tn d hfresh
    · rw [hr]
      intro p hp hdp
      exact smart_unpack_declined_abort u fs0 out outFile tn d p hdp hp
    · rw [hr]
      intro p hp
      obtain ⟨x, hx⟩ := smart_unpack_prompt_shape u fs0 out outFile tn d _ hp
      simp at hx
  · refine ⟨?_, ?_, ?_, fun m h => by simp at h⟩
    · rw [hr]
      intro h
      exact smart_unpack_abort_fs u fs0 out outFile tn d hfresh h
    · rw [hr]
      intro p hp hdp
      rcases List.mem_cons.mp hp with h | h
      · simp at h
      · exact smart_unpack_declined_abort u fs0 out outFile tn d p hdp h
    · rw [hr]
      intro p hp
      rcases List.mem_cons.mp hp with h | h
      · simp at h
      · obtain ⟨x, hx⟩ := smart_unpack_prompt_shape u fs0 out outFile tn d _ h
        simp at hx
  · refine ⟨?_, ?_, ?_, fun m h => by simp at h⟩
    · rw [hr]
      intro _
      rfl
    · rw [hr]
      intro p hp
      simp at hp
    · rw [hr]
      intro p hp
      simp at hp
  · refine ⟨?_, ?_, ?_, fun m h => by simp at h⟩
    · rw [hr]
      intro h
      simp at h
    · rw [hr]
      intro p hp
      simp at hp
    · rw [hr]
      intro p hp hdp
      have : p = outFile := by simpa using hp
      rw [this, h2] at hdp
      simp at hdp
  · refine ⟨?_, ?_, ?_, fun m h => by simp at h⟩
    · rw [hr]
      intro _
      rfl
    · rw [hr]
      intro p hp
      simp at hp
    · rw [hr]
      intro _ _ _
      rfl
  · refine ⟨?_, ?_, ?_, fun m h => by simp at h⟩
    · rw [hr]
      intro h
      simp at h
    · rw [hr]
      intro p hp
      simp at hp
    · rw [hr]
      intro p hp
      simp at hp

/-- C3 witness: on a run over a gzipped single file whose output path
already exists and every question is declined, the model aborts. -/
theorem c3_decline_clean_abort_witness :
    (∀ q ∈ [[("d" : String)], ["d", "o"]], isUnder (tempPathOf ["d"] "t") q = false)
    ∧ (((decompress_file tagDec (okExtract [] 0) (okExtract [] 0) (okExtract [] 0) [5]
          [CompressionFormat.Gzip] [["d"], ["d", "o"]] ["d"] ["d", "o"] "t" allNo).outcome
            = .aborted →
        (decompress_file tagDec (okExtract [] 0) (okExtract [] 0) (okExtract [] 0) [5]
          [CompressionFormat.Gzip] [["d"], ["d", "o"]] ["d"] ["d", "o"] "t" allNo).fs
            = [["d"], ["d", "o"]])
       ∧ (∀ p, Prompt.collision p
            ∈ (decompress_file tagDec (okExtract [] 0) (okExtract [] 0) (okExtract [] 0) [5]
              [CompressionFormat.Gzip] [["d"], ["d", "o"]] ["d"] ["d", "o"] "t" allNo).prompts →
            allNo (Prompt.collision p) = false →
            (decompress_file tagDec (okExtract [] 0) (okExtract [] 0) (okExtract [] 0) [5]
              [CompressionFormat.Gzip] [["d"], ["d", "o"]] ["d"] ["d", "o"] "t" allNo).outcome
              = .aborted)
       ∧ (∀ p, Prompt.createFile p
            ∈ (decompress_file tagDec (okExtract [] 0) (okExtract [] 0) (okExtract [] 0) [5]
              [CompressionFormat.Gzip] [["d"], ["d", "o"]] ["d"] ["d", "o"] "t" allNo).prompts →
            allNo (Prompt.createFile p) = false →
            (decompress_file tagDec (okExtract [] 0) (okExtract [] 0) (okExtract [] 0) [5]
              [CompressionFormat.Gzip] [["d"], ["d", "o"]] ["d"] ["d", "o"] "t" allNo).outcome
              = .aborted)
       ∧ (∀ m, (Outcome.aborted = Outcome.success m) → False)) :=
  ⟨by decide, c3_decline_clean_abort tagDec (okExtract [] 0) (okExtract [] 0) (okExtract [] 0)
    [5] [CompressionFormat.Gzip] [["d"], ["d", "o"]] ["d"] ["d", "o"] "t" allNo (by decide)⟩

/-! ### The 7z entry count (C6) -/

theorem sevenzExtractRun_count_aux :
    ∀ (entries : List SevenZEntry) (k : Nat) (w : List SevenZEntry),
      (entries.foldl (fun acc e => (acc.1 + 1, if e.isDir then acc.2 else acc.2 ++ [e]))
        (k, w)).1 = k + entries.length
  | [], k, w => by simp
  | e :: es, k, w => by
    rw [List.foldl_cons, sevenzExtractRun_count_aux es (k + 1) _]
    simp
    omega

/-- C6: counterexample and actual behavior.  `decompress_sevenz`
increments its count on every extract-callback invocation, and the
callback runs for every archive entry, directories included: on the
two-entry archive {regular file `a`, directory `d`} the reported count
is 2 while only 1 regular file is written, refuting the claimed
equality; in general the reported count is the total number of entries
processed, not the number of regular files written. -/
theorem c6_count_counts_directories :
    decompress_sevenz_count [⟨"a", [], false⟩, ⟨"d", [], true⟩] = 2
    ∧ regularFilesWritten [⟨"a", [], false⟩, ⟨"d", [], true⟩] = 1
    ∧ ¬ (decompress_sevenz_count [⟨"a", [], false⟩, ⟨"d", [], true⟩]
        = regularFilesWritten [⟨"a", [], false⟩, ⟨"d", [], true⟩])
    ∧ (∀ entries : List SevenZEntry, decompress_sevenz_count entries = entries.length) := by
  refine ⟨by decide, by decide, by decide, fun entries => ?_⟩
  unfold decompress_sevenz_count sevenzExtractRun
  rw [sevenzExtractRun_count_aux entries 0 []]
  simp

end Ouch
